import Mathlib

/-!
Verification of the human-in-the-loop (HITL) layer of the legal-risk-analyzer
repository (`hitl_implementation.py`), as a shallow embedding in Lean 4.

Modelling conventions, used throughout:

* Python values that flow through the reviewed action arguments are modelled by
  the inductive `PyVal` (strings, integers, lists, dicts with string keys).
  A Python dict is a `List (String × PyVal)` in insertion order; updating an
  existing key rewrites the first matching entry in place, a fresh key is
  appended at the end (`pySet`), exactly the observable behaviour of a Python
  dict for the operations the source performs.
* Exceptions are modelled by `Except PyErr`: `KeyError`, `ValueError` (from
  `int(...)` on a non-numeric string), `TypeError`, `EOFError` (from `input()`
  at end of input) and `json.JSONDecodeError`.
* Interactive standard input is a `List String` of the lines the human types;
  `input()` consumes the head and raises `EOFError` when the list is empty.
* In-place mutation (the source aliases `todos = action_request['args']['todos']`
  and mutates that list) is made observable by having every review function
  return, next to the decision, the value of the `action_request` after the
  call; an unmutated request is returned unchanged.
-/

/-- A Python value as it appears in action arguments and audit records:
strings, integers, lists and string-keyed dicts (insertion-ordered). -/
inductive PyVal where
  | str (s : String)
  | int (n : Int)
  | list (xs : List PyVal)
  | dict (kvs : List (String × PyVal))

/-- Dict lookup (`d[k]` / `d.get(k)`): first entry with the given key. -/
def pyGet? (kvs : List (String × PyVal)) (k : String) : Option PyVal :=
  (kvs.find? (fun p => p.1 == k)).map (fun p => p.2)

/-- Dict update (`d[k] = v`): rewrite the first entry holding `k` in place,
or append a fresh entry at the end, as a Python dict does. -/
def pySet (kvs : List (String × PyVal)) (k : String) (v : PyVal) :
    List (String × PyVal) :=
  match kvs with
  | [] => [(k, v)]
  | (k', v') :: rest =>
    if k' == k then (k', v) :: rest else (k', v') :: pySet rest k v

/-- Python exceptions raised by the embedded code. -/
inductive PyErr where
  | valueError (s : String)
  | keyError (k : String)
  | typeError
  | eofError
  | jsonDecodeError
deriving DecidableEq

/-- `len(v)`: defined on strings, lists and dicts; raises `TypeError`
otherwise. -/
def pyLen (v : PyVal) : Except PyErr Nat :=
  match v with
  | .str s => .ok s.length
  | .list xs => .ok xs.length
  | .dict kvs => .ok kvs.length
  | .int _ => .error .typeError

/-- Python `str.strip()`: drop whitespace from both ends.  (Defined over the
character list so that it evaluates inside the kernel.) -/
def strTrim (s : String) : String :=
  ⟨((s.data.dropWhile Char.isWhitespace).reverse.dropWhile
      Char.isWhitespace).reverse⟩

/-- Python `int(...)` on a string: after stripping whitespace, an optional
sign followed by a nonempty digit run; everything else raises `ValueError`
(`none` here).  (Defined over the character list so that it evaluates inside
the kernel.) -/
def parseDigits : List Char → Option Nat
  | [] => none
  | cs =>
    cs.foldl (fun acc c =>
      match acc with
      | none => none
      | some n => if c.isDigit then some (n * 10 + (c.toNat - 48)) else none)
      (some 0)

/-- See `parseDigits`. -/
def parseInt? (s : String) : Option Int :=
  match (strTrim s).data with
  | '-' :: rest => (parseDigits rest).map (fun n => -(n : Int))
  | '+' :: rest => (parseDigits rest).map (fun n => (n : Int))
  | cs => (parseDigits cs).map (fun n => (n : Int))

/-- Python `str(...)` as used inside f-strings; for the strings the claims
exercise only the `.str` case matters, the other cases render canonically. -/
def pyStr (v : PyVal) : String :=
  match v with
  | .str s => s
  | .int n => toString n
  | .list _ => "[...]"
  | .dict _ => "{...}"

/-- One agent-proposed action, the dict `{name: ..., args: ...}` with both
keys present (as the Agent contract produces it). -/
structure ActionRequest where
  name : String
  args : PyVal

/-- A review decision as returned by the review interfaces: the dicts
`{type: approve}`, `{type: reject}` or
`{type: edit, edited_action: {name, args}}`. -/
inductive Decision where
  | approve
  | reject
  | edit (name : String) (args : PyVal)

/-- `decision["type"]`. -/
def decisionType (d : Decision) : String :=
  match d with
  | .approve => "approve"
  | .reject => "reject"
  | .edit _ _ => "edit"

/-- `decision.get("edited_action", {}).get("args")`. -/
def editedArgs (d : Decision) : Option PyVal :=
  match d with
  | .edit _ a => some a
  | _ => none

/-- One entry of a pause batch's `review_configs`: the dict
`{action_name, allowed_decisions?}` (the latter key may be absent). -/
structure ReviewConfig where
  action_name : String
  allowed_decisions : Option (List String)

/-- The reviewer context the control loop builds per action:
`{stage: "iteration <n>", thread_id}`. -/
structure Context where
  stage : String
  thread_id : String
deriving DecidableEq

/-! ## Approval configurations (`ApprovalLevel`)

A policy value is either a plain boolean or the restricted dict
`{"allowed_decisions": [...]}`; a policy is the insertion-ordered dict from
action-kind to policy value, exactly as the four constructors build it. -/

/-- A value of an approval policy entry: plain boolean or restricted
decision set. -/
inductive ApprovalVal where
  | flag (b : Bool)
  | restricted (allowed : List String)
deriving DecidableEq

/-- `ApprovalLevel.high_oversight()`. -/
def ApprovalLevel.high_oversight : List (String × ApprovalVal) :=
  [("write_todos", .flag true),
   ("task", .flag true),
   ("get_document", .flag true),
   ("get_document_pages", .flag true),
   ("write_file", .flag true),
   ("edit_file", .flag true)]

/-- `ApprovalLevel.moderate_oversight()`. -/
def ApprovalLevel.moderate_oversight : List (String × ApprovalVal) :=
  [("write_todos", .flag true),
   ("task", .flag true),
   ("get_document", .flag false),
   ("get_document_pages", .flag false),
   ("write_file", .flag true),
   ("edit_file", .restricted ["approve", "reject"])]

/-- `ApprovalLevel.minimal_oversight()`. -/
def ApprovalLevel.minimal_oversight : List (String × ApprovalVal) :=
  [("write_todos", .flag false),
   ("task", .flag false),
   ("get_document", .flag false),
   ("get_document_pages", .flag false),
   ("write_file", .flag true),
   ("edit_file", .flag true)]

/-- `ApprovalLevel.custom(planning, delegation, document_access,
file_operations)`. -/
def ApprovalLevel.custom (planning delegation document_access
    file_operations : Bool) : List (String × ApprovalVal) :=
  [("write_todos", .flag planning),
   ("task", .flag delegation),
   ("get_document", .flag document_access),
   ("get_document_pages", .flag document_access),
   ("write_file", .flag file_operations),
   ("edit_file", .flag file_operations)]

/-- The key list of a policy dict. -/
def policyKeys (p : List (String × ApprovalVal)) : List String :=
  p.map (fun e => e.1)

/-- Lookup of one action-kind in a policy dict. -/
def policyGet (p : List (String × ApprovalVal)) (k : String) :
    Option ApprovalVal :=
  ((p.find? (fun e => e.1 == k)).map (fun e => e.2))

/-- The fixed set of six action-kinds every policy covers. -/
def sixActionKinds : List String :=
  ["write_todos", "task", "get_document", "get_document_pages",
   "write_file", "edit_file"]

/-- Claim C8: `high_oversight()`, `moderate_oversight()`, `minimal_oversight()`
and `custom(p, d, da, fo)` for every combination of the four booleans each
return a mapping whose key set is exactly the six action-kinds `write_todos`,
`task`, `get_document`, `get_document_pages`, `write_file`, `edit_file`. -/
theorem policies_cover_six_action_kinds :
    policyKeys ApprovalLevel.high_oversight = sixActionKinds ∧
    policyKeys ApprovalLevel.moderate_oversight = sixActionKinds ∧
    policyKeys ApprovalLevel.minimal_oversight = sixActionKinds ∧
    ∀ p d da fo : Bool,
      policyKeys (ApprovalLevel.custom p d da fo) = sixActionKinds := by
  refine ⟨rfl, rfl, rfl, ?_⟩
  intro p d da fo
  rfl

/-- Claim C9: `moderate_oversight()` maps `edit_file` to the restricted
decision set `{approve, reject}`, while `high_oversight()`,
`minimal_oversight()` and `custom(...)` map `edit_file` to a plain boolean. -/
theorem moderate_edit_file_asymmetry :
    policyGet ApprovalLevel.moderate_oversight "edit_file"
      = some (.restricted ["approve", "reject"]) ∧
    policyGet ApprovalLevel.high_oversight "edit_file"
      = some (.flag true) ∧
    policyGet ApprovalLevel.minimal_oversight "edit_file"
      = some (.flag true) ∧
    ∀ p d da fo : Bool,
      policyGet (ApprovalLevel.custom p d da fo) "edit_file"
        = some (.flag fo) := by
  refine ⟨rfl, rfl, rfl, ?_⟩
  intro p d da fo
  rfl

/-! ## Interactive review interface (`CLIReviewInterface`)

Every function takes the remaining standard-input lines and returns
`(decision, action_request after the call, remaining input)`, or the Python
exception that escaped.  Two capabilities of the environment are passed in as
parameters: `jsonParse` models `json.loads` (`none` = `JSONDecodeError`) and
`editor` models the external text-editor round trip of `_edit_file` choice 2
(old file content to edited file content). -/

/-- The reads `todo['task']` and `todo['status']` performed by the
todo-printing loop at the top of `_edit_todos`: each todo must be a dict
carrying both keys, otherwise `TypeError`/`KeyError` is raised. -/
def checkTodos : List PyVal → Except PyErr Unit
  | [] => .ok ()
  | t :: rest =>
    match t with
    | .dict kvs =>
      match pyGet? kvs "task" with
      | none => .error (.keyError "task")
      | some _ =>
        match pyGet? kvs "status" with
        | none => .error (.keyError "status")
        | some _ => checkTodos rest
    | _ => .error .typeError

/-- `CLIReviewInterface._edit_generic`: read raw lines until end of input
(consuming all remaining input), parse them as JSON; on success wrap the
parsed value in an edit decision keeping the original action name, on parse
failure report and return a reject decision.  Never raises. -/
def edit_generic (jsonParse : String → Option PyVal) (ar : ActionRequest)
    (stdin : List String) :
    Except PyErr (Decision × ActionRequest × List String) :=
  let editedJson := String.intercalate "\n" stdin
  match jsonParse editedJson with
  | some v => .ok (.edit ar.name v, ar, [])
  | none => .ok (.reject, ar, [])

/-- `CLIReviewInterface._edit_todos`.  The local name `todos` aliases
`action_request['args']['todos']`, so the in-place list mutations of the
add / remove / change-priority branches are visible in the returned
post-call `action_request` (its `args` dict keeps its other entries and its
entry order, only the value at `"todos"` is the mutated list). -/
def edit_todos (jsonParse : String → Option PyVal) (ar : ActionRequest)
    (stdin : List String) :
    Except PyErr (Decision × ActionRequest × List String) :=
  match ar.args with
  | .dict kvs =>
    match pyGet? kvs "todos" with
    | none => .error (.keyError "todos")
    | some todosV =>
      match todosV with
      | .list todos =>
        match checkTodos todos with
        | .error e => .error e
        | .ok _ =>
          match stdin with
          | [] => .error .eofError
          | choiceRaw :: rest =>
            let choice := strTrim choiceRaw
            if choice == "1" then
              match rest with
              | [] => .error .eofError
              | task :: rest2 =>
                match rest2 with
                | [] => .error .eofError
                | prioRaw :: rest3 =>
                  let prio := if strTrim prioRaw == "" then "medium"
                              else strTrim prioRaw
                  let todos2 := todos ++
                    [PyVal.dict [("task", .str task),
                                 ("status", .str "pending"),
                                 ("priority", .str prio)]]
                  .ok (.edit "write_todos" (.dict [("todos", .list todos2)]),
                       { ar with args := .dict (pySet kvs "todos" (.list todos2)) },
                       rest3)
            else if choice == "2" then
              match rest with
              | [] => .error .eofError
              | numRaw :: rest2 =>
                match parseInt? numRaw with
                | none => .error (.valueError numRaw)
                | some num =>
                  if 1 ≤ num ∧ num ≤ todos.length then
                    let todos2 := todos.eraseIdx (num - 1).toNat
                    .ok (.edit "write_todos" (.dict [("todos", .list todos2)]),
                         { ar with args := .dict (pySet kvs "todos" (.list todos2)) },
                         rest2)
                  else
                    .ok (.edit "write_todos" (.dict [("todos", .list todos)]),
                         ar, rest2)
            else if choice == "3" then
              match rest with
              | [] => .error .eofError
              | numRaw :: rest2 =>
                match parseInt? numRaw with
                | none => .error (.valueError numRaw)
                | some num =>
                  if 1 ≤ num ∧ num ≤ todos.length then
                    match rest2 with
                    | [] => .error .eofError
                    | prio :: rest3 =>
                      match todos.get? (num - 1).toNat with
                      | some (.dict tkvs) =>
                        let todos2 := todos.set (num - 1).toNat
                          (.dict (pySet tkvs "priority" (.str prio)))
                        .ok (.edit "write_todos"
                               (.dict [("todos", .list todos2)]),
                             { ar with args := .dict (pySet kvs "todos" (.list todos2)) },
                             rest3)
                      | _ => .error .typeError
                  else
                    .ok (.edit "write_todos" (.dict [("todos", .list todos)]),
                         ar, rest2)
            else if choice == "4" then
              edit_generic jsonParse ar rest
            else if choice == "5" then
              .ok (.reject, ar, rest)
            else
              .ok (.edit "write_todos" (.dict [("todos", .list todos)]),
                   ar, rest)
      | _ => .error .typeError
  | _ => .error .typeError

/-- `CLIReviewInterface._edit_task`: reads `args['name']` and `args['task']`
for display (raising `KeyError` when absent), then dispatches on the menu
choice; any choice other than 1, 2, 3 cancels and rejects.  The original
`action_request` is never mutated. -/
def edit_task (jsonParse : String → Option PyVal) (ar : ActionRequest)
    (stdin : List String) :
    Except PyErr (Decision × ActionRequest × List String) :=
  match ar.args with
  | .dict kvs =>
    match pyGet? kvs "name" with
    | none => .error (.keyError "name")
    | some nameV =>
      match pyGet? kvs "task" with
      | none => .error (.keyError "task")
      | some taskV =>
        match stdin with
        | [] => .error .eofError
        | choiceRaw :: rest =>
          let choice := strTrim choiceRaw
          if choice == "1" then
            match rest with
            | [] => .error .eofError
            | additionalContext :: rest2 =>
              let newTask :=
                pyStr taskV ++ "\n\nADDITIONAL CONTEXT:\n" ++ additionalContext
              .ok (.edit "task" (.dict [("name", nameV),
                                        ("task", .str newTask)]),
                   ar, rest2)
          else if choice == "2" then
            match rest with
            | [] => .error .eofError
            | newSubagent :: rest2 =>
              .ok (.edit "task" (.dict [("name", .str (strTrim newSubagent)),
                                        ("task", taskV)]),
                   ar, rest2)
          else if choice == "3" then
            edit_generic jsonParse ar rest
          else
            .ok (.reject, ar, rest)
  | _ => .error .typeError

/-- `CLIReviewInterface._edit_file`: reads `args['file_path']` and
`args['content']` and takes `len(content)` for display, then dispatches on
the menu choice; any choice other than 1, 2, 3 cancels and rejects.  Choice 2
round-trips the content through the external `editor`; writing a non-string
content to the temp file raises `TypeError`.  The original `action_request`
is never mutated. -/
def edit_file (jsonParse : String → Option PyVal) (editor : String → String)
    (ar : ActionRequest) (stdin : List String) :
    Except PyErr (Decision × ActionRequest × List String) :=
  match ar.args with
  | .dict kvs =>
    match pyGet? kvs "file_path" with
    | none => .error (.keyError "file_path")
    | some pathV =>
      match pyGet? kvs "content" with
      | none => .error (.keyError "content")
      | some contentV =>
        match pyLen contentV with
        | .error e => .error e
        | .ok _ =>
          match stdin with
          | [] => .error .eofError
          | choiceRaw :: rest =>
            let choice := strTrim choiceRaw
            if choice == "1" then
              match rest with
              | [] => .error .eofError
              | newPath :: rest2 =>
                .ok (.edit "write_file"
                       (.dict [("file_path", .str (strTrim newPath)),
                               ("content", contentV)]),
                     ar, rest2)
            else if choice == "2" then
              match contentV with
              | .str content =>
                .ok (.edit "write_file"
                       (.dict [("file_path", pathV),
                               ("content", .str (editor content))]),
                     ar, rest)
              | _ => .error .typeError
            else if choice == "3" then
              edit_generic jsonParse ar rest
            else
              .ok (.reject, ar, rest)
  | _ => .error .typeError

/-- `CLIReviewInterface._handle_edit`: dispatch to the action-kind-specific
editing flow. -/
def handle_edit (jsonParse : String → Option PyVal)
    (editor : String → String) (ar : ActionRequest) (stdin : List String) :
    Except PyErr (Decision × ActionRequest × List String) :=
  if ar.name == "write_todos" then edit_todos jsonParse ar stdin
  else if ar.name == "task" then edit_task jsonParse ar stdin
  else if ar.name == "write_file" then edit_file jsonParse editor ar stdin
  else edit_generic jsonParse ar stdin

/-- The `while True` prompt of `CLIReviewInterface.review_action`: an invalid
choice re-prompts; `input()` raises `EOFError` once the input is
exhausted. -/
def reviewPrompt (jsonParse : String → Option PyVal)
    (editor : String → String) (allowed : List String) (ar : ActionRequest) :
    List String → Except PyErr (Decision × ActionRequest × List String)
  | [] => .error .eofError
  | choiceRaw :: rest =>
    let choice := strTrim choiceRaw
    if choice == "1" && allowed.contains "approve" then
      .ok (.approve, ar, rest)
    else if choice == "2" && allowed.contains "edit" then
      handle_edit jsonParse editor ar rest
    else if choice == "3" && allowed.contains "reject" then
      .ok (.reject, ar, rest)
    else
      reviewPrompt jsonParse editor allowed ar rest

/-- `CLIReviewInterface.review_action`: computes the allowed decision set
(defaulting to all three when the config carries none) and runs the prompt
loop.  The context is display-only and read with `.get`, so it cannot raise
and does not influence the result. -/
def review_action (jsonParse : String → Option PyVal)
    (editor : String → String) (ar : ActionRequest) (cfg : ReviewConfig)
    (ctx : Option Context) (stdin : List String) :
    Except PyErr (Decision × ActionRequest × List String) :=
  let _ := ctx
  let allowed := cfg.allowed_decisions.getD ["approve", "edit", "reject"]
  reviewPrompt jsonParse editor allowed ar stdin

/-! ## Audit logging (`AuditLogger`)

The audit store is `Option (List LogLine)`: `none` is an absent file,
otherwise the list of its lines.  Every line written by `log_review` is the
JSON serialization of one audit entry; `json.loads` recovers the entry from
such a line and raises `JSONDecodeError` on a blank line, so a line is
modelled as either a serialized record or a blank line. -/

/-- One audit record, the dict `log_review` serializes per line. -/
structure AuditEntry where
  timestamp : String
  thread_id : String
  reviewer : String
  action_tool : String
  action_args : PyVal
  decision_type : String
  edited_args : Option PyVal
  context : Option Context

/-- One line of the audit store: the serialization of a record, or blank. -/
inductive LogLine where
  | blank
  | record (e : AuditEntry)

/-- `AuditLogger.log_review`: append one serialized entry as a single line,
creating the file when absent.  `now` stands for
`datetime.now().isoformat()`. -/
def log_review (now : String) (ar : ActionRequest) (d : Decision)
    (reviewer thread_id : String) (ctx : Option Context)
    (store : Option (List LogLine)) : Option (List LogLine) :=
  some ((store.getD []) ++
    [LogLine.record
      ⟨now, thread_id, reviewer, ar.name, ar.args,
       decisionType d, editedArgs d, ctx⟩])

/-- The statistics dict built by `get_review_stats`; the three count dicts
keep Python-dict insertion order. -/
structure Stats where
  total_reviews : Nat
  by_decision : List (String × Nat)
  by_tool : List (String × Nat)
  by_reviewer : List (String × Nat)
deriving DecidableEq

/-- `d[k] = d.get(k, 0) + 1` on a count dict. -/
def bump (d : List (String × Nat)) (k : String) : List (String × Nat) :=
  match d with
  | [] => [(k, 1)]
  | (k', v) :: rest =>
    if k' == k then (k', v + 1) :: rest else (k', v) :: bump rest k

/-- `sum(d.values())`. -/
def sumVals (d : List (String × Nat)) : Nat :=
  (d.map (fun e => e.2)).sum

/-- The stats dict as initialized at the top of `get_review_stats`. -/
def initStats : Stats :=
  ⟨0, [("approve", 0), ("edit", 0), ("reject", 0)], [], []⟩

/-- The per-record update of the stats dict inside the read loop. -/
def statsStep (s : Stats) (e : AuditEntry) : Stats :=
  ⟨s.total_reviews + 1,
   bump s.by_decision e.decision_type,
   bump s.by_tool e.action_tool,
   bump s.by_reviewer e.reviewer⟩

/-- The `for line in f` loop of `get_review_stats`: `json.loads` on a blank
line raises `JSONDecodeError`, which the source does not catch. -/
def statsLoop : List LogLine → Stats → Except PyErr Stats
  | [], s => .ok s
  | .blank :: _, _ => .error .jsonDecodeError
  | .record e :: rest, s => statsLoop rest (statsStep s e)

/-- The value `get_review_stats` returns: the bare `{}` for an absent store,
or the populated stats dict. -/
inductive StatsResult where
  | empty
  | stats (s : Stats)
deriving DecidableEq

/-- `AuditLogger.get_review_stats`. -/
def get_review_stats (store : Option (List LogLine)) :
    Except PyErr StatsResult :=
  match store with
  | none => .ok .empty
  | some lines => (statsLoop lines initStats).map .stats

/-- The arguments of one `log_review` call. -/
structure LogCall where
  now : String
  action : ActionRequest
  decision : Decision
  reviewer : String
  thread_id : String
  context : Option Context

/-- The audit entry a `log_review` call serializes. -/
def entryOfCall (c : LogCall) : AuditEntry :=
  ⟨c.now, c.thread_id, c.reviewer, c.action.name, c.action.args,
   decisionType c.decision, editedArgs c.decision, c.context⟩

/-- A sequence of `log_review` calls against the same store. -/
def logMany : List LogCall → Option (List LogLine) → Option (List LogLine)
  | [], store => store
  | c :: rest, store =>
    logMany rest
      (log_review c.now c.action c.decision c.reviewer c.thread_id
        c.context store)

/-- The sum of the values of a count dict grows by one on each bump. -/
theorem sumVals_bump (d : List (String × Nat)) (k : String) :
    sumVals (bump d k) = sumVals d + 1 := by
  induction d with
  | nil => simp [bump, sumVals]
  | cons e rest ih =>
    obtain ⟨k', v⟩ := e
    by_cases h : (k' == k) = true
    · simp [bump, h, sumVals]; omega
    · simp only [bump, h, if_neg] at ih ⊢
      simp [sumVals] at ih ⊢
      omega

/-- Reading a store of serialized records only never raises and folds the
per-record update over them. -/
theorem statsLoop_records (es : List AuditEntry) :
    ∀ s, statsLoop (es.map .record) s = .ok (es.foldl statsStep s) := by
  induction es with
  | nil => intro s; simp [statsLoop]
  | cons e rest ih => intro s; simp [statsLoop, ih]

/-- Each processed record adds exactly one to the total and to the value sums
of the decision and tool count dicts. -/
theorem foldl_statsStep (es : List AuditEntry) :
    ∀ s : Stats,
      (es.foldl statsStep s).total_reviews = s.total_reviews + es.length ∧
      sumVals (es.foldl statsStep s).by_decision
        = sumVals s.by_decision + es.length ∧
      sumVals (es.foldl statsStep s).by_tool
        = sumVals s.by_tool + es.length := by
  induction es with
  | nil => intro s; simp
  | cons e rest ih =>
    intro s
    obtain ⟨h1, h2, h3⟩ := ih (statsStep s e)
    simp only [List.foldl_cons, List.length_cons]
    rw [h1, h2, h3]
    simp only [statsStep, sumVals_bump]
    omega

/-- Each `log_review` call against an existing store appends exactly its one
serialized record. -/
theorem logMany_some (calls : List LogCall) :
    ∀ store : List LogLine,
      logMany calls (some store)
        = some (store ++ calls.map (fun c => .record (entryOfCall c))) := by
  induction calls with
  | nil => intro store; simp [logMany]
  | cons c rest ih =>
    intro store
    simp [logMany, log_review, ih, entryOfCall]

/-- The read loop raises `JSONDecodeError` precisely when the store holds a
blank line. -/
theorem statsLoop_error_iff (lines : List LogLine) :
    ∀ s, statsLoop lines s = .error PyErr.jsonDecodeError ↔
      LogLine.blank ∈ lines := by
  induction lines with
  | nil => intro s; simp [statsLoop]
  | cons l rest ih =>
    intro s
    cases l with
    | blank => simp [statsLoop]
    | record e => simp [statsLoop, ih]

/-- The read loop either succeeds or raises `JSONDecodeError`. -/
theorem statsLoop_ok_or (lines : List LogLine) :
    ∀ s, (∃ s2, statsLoop lines s = .ok s2) ∨
      statsLoop lines s = .error PyErr.jsonDecodeError := by
  induction lines with
  | nil => intro s; exact Or.inl ⟨s, rfl⟩
  | cons l rest ih =>
    intro s
    cases l with
    | blank => exact Or.inr rfl
    | record e => exact ih (statsStep s e)

/-- A concrete valid audit record, used by the counterexamples below. -/
def e0 : AuditEntry :=
  ⟨"2024-01-01T00:00:00", "thread_1", "reviewer_1", "write_file",
   .dict [], "approve", none, none⟩

/-- Claim C6 counterexample: one valid record followed by one blank line makes
`get_review_stats` raise `JSONDecodeError` instead of returning the aggregates
of the record alone — blank lines are not skipped. -/
theorem stats_blank_line_not_skipped :
    get_review_stats (some [.record e0, .blank])
      = .error PyErr.jsonDecodeError ∧
    get_review_stats (some [.record e0, .blank])
      ≠ get_review_stats (some [.record e0]) := by
  constructor
  · rfl
  · intro h
    rw [show get_review_stats (some [.record e0, .blank])
          = .error PyErr.jsonDecodeError from rfl,
        show get_review_stats (some [.record e0])
          = .ok (.stats (statsStep initStats e0)) from rfl] at h
    exact Except.noConfusion h

/-- Claim C6 (amended): `get_review_stats` does not skip blank lines: it
raises a JSON parse error exactly when the log content holds a blank line,
and returns the aggregates without error whenever the content is valid
records only. -/
theorem stats_blank_lines_raise (lines : List LogLine) :
    (get_review_stats (some lines) = .error PyErr.jsonDecodeError ↔
      LogLine.blank ∈ lines) ∧
    (LogLine.blank ∉ lines →
      ∃ s, get_review_stats (some lines) = .ok (.stats s)) := by
  have hiff := statsLoop_error_iff lines initStats
  have hor := statsLoop_ok_or lines initStats
  constructor
  · constructor
    · intro h
      rcases hor with ⟨s, hs⟩ | he
      · exfalso
        have hcontr : (statsLoop lines initStats).map StatsResult.stats
            = .error PyErr.jsonDecodeError := h
        rw [hs] at hcontr
        exact Except.noConfusion hcontr
      · exact hiff.1 he
    · intro hb
      show (statsLoop lines initStats).map StatsResult.stats
          = .error PyErr.jsonDecodeError
      rw [hiff.2 hb]
      rfl
  · intro hnb
    rcases hor with ⟨s, hs⟩ | he
    · refine ⟨s, ?_⟩
      show (statsLoop lines initStats).map StatsResult.stats
          = .ok (.stats s)
      rw [hs]
      rfl
    · exact absurd (hiff.1 he) hnb

/-- Witness for the amended claim C6 at a concrete blank-free store. -/
theorem stats_blank_lines_raise_witness :
    (LogLine.blank ∉ [LogLine.record e0]) ∧
    ∃ s, get_review_stats (some [LogLine.record e0]) = .ok (.stats s) :=
  ⟨by simp, (stats_blank_lines_raise [LogLine.record e0]).2 (by simp)⟩

/-- Claim C7: starting from an absent audit store, logging `N` review
decisions via `log_review` and then reading `get_review_stats` yields a
populated aggregate with `total_reviews = N`, decision counts summing to `N`
and tool counts summing to `N` (for `N = 0` the store is still absent and the
bare empty dict is returned). -/
theorem log_then_stats_totals (calls : List LogCall) :
    (calls = [] → get_review_stats (logMany calls none) = .ok .empty) ∧
    (calls ≠ [] →
      ∃ s, get_review_stats (logMany calls none) = .ok (.stats s) ∧
        s.total_reviews = calls.length ∧
        sumVals s.by_decision = calls.length ∧
        sumVals s.by_tool = calls.length) := by
  constructor
  · intro h
    subst h
    rfl
  · intro hne
    match calls with
    | [] => exact absurd rfl hne
    | c :: rest =>
      have hfile : logMany (c :: rest) none
          = some ((c :: rest).map (fun x => .record (entryOfCall x))) := by
        show logMany rest
            (log_review c.now c.action c.decision c.reviewer c.thread_id
              c.context none)
          = _
        rw [show log_review c.now c.action c.decision c.reviewer c.thread_id
              c.context none
            = some [.record (entryOfCall c)] from rfl,
            logMany_some]
        rfl
      set es := (c :: rest).map (fun x => entryOfCall x) with hes
      have hmap : (c :: rest).map (fun x => LogLine.record (entryOfCall x))
          = es.map .record := by
        simp [hes]
      refine ⟨es.foldl statsStep initStats, ?_, ?_, ?_, ?_⟩
      · rw [hfile, hmap]
        show (statsLoop (es.map .record) initStats).map StatsResult.stats = _
        rw [statsLoop_records]
        rfl
      · have h := (foldl_statsStep es initStats).1
        rw [h]
        simp [initStats, hes]
      · have h := (foldl_statsStep es initStats).2.1
        rw [h]
        simp [initStats, sumVals, hes]
      · have h := (foldl_statsStep es initStats).2.2
        rw [h]
        simp [initStats, sumVals, hes]

/-- A concrete `log_review` call, used by the claim C7 witness. -/
def c0 : LogCall :=
  ⟨"2024-01-01T00:00:00", ⟨"write_file", .dict []⟩, .approve,
   "reviewer_1", "thread_1", none⟩

/-- Witness for claim C7 at a one-call log. -/
theorem log_then_stats_totals_witness :
    ([c0] ≠ ([] : List LogCall)) ∧
    ∃ s, get_review_stats (logMany [c0] none) = .ok (.stats s) ∧
      s.total_reviews = [c0].length ∧
      sumVals s.by_decision = [c0].length ∧
      sumVals s.by_tool = [c0].length :=
  ⟨by simp, (log_then_stats_totals [c0]).2 (by simp)⟩

/-! ## HITL control loop (`run_agent_with_hitl`)

The Agent is opaque: along one thread its behaviour is the sequence of
results it returns, modelled as `agent : Nat → AgentResult` (call 0 is the
initial `invoke`, call `k ≥ 1` the `k`-th resume).  The review interface is a
capability `review` that may consume interactive state `σ`, may mutate the
action request and may raise; an optional audit capability folds each logged
decision into audit state `α`.  The loop additionally emits the ghost trace
of its resume calls (`ResumeCall`): for each processed pause batch, the batch
content, the context built for it, the ordered decision list passed to
`Command(resume=...)`, and the thread identifier of the resumed call. -/

/-- The value of one interrupt: `{action_requests, review_configs}`. -/
structure Interrupt where
  action_requests : List ActionRequest
  review_configs : List ReviewConfig

/-- An agent result; `interrupts` is the `__interrupt__` entry, empty when
the key is absent (terminal result).  The terminal payload (messages) is
never read by the loop and is omitted. -/
structure AgentResult where
  interrupts : List Interrupt

/-- Ghost record of one resume call made by the loop. -/
structure ResumeCall where
  actionRequests : List ActionRequest
  reviewConfigs : List ReviewConfig
  context : Context
  decisions : List Decision
  threadId : String

/-- What a completed loop run exposes: the final result, the iteration
counter, the total number of Agent calls (initial invoke plus resumes), the
resume trace and whether the max-iterations warning was printed. -/
structure LoopOutcome where
  result : AgentResult
  iterations : Nat
  agentCalls : Nat
  resumes : List ResumeCall
  warned : Bool

/-- `config_map = {cfg["action_name"]: cfg for cfg in review_configs}`:
a dict comprehension, so for duplicate action names the last entry wins. -/
def buildConfigMap (cfgs : List ReviewConfig) (name : String) :
    Option ReviewConfig :=
  cfgs.reverse.find? (fun c => c.action_name == name)

/-- The per-batch `for action in action_requests` loop: look up the action's
review config (`config_map[action["name"]]` raises `KeyError` naming the
action-kind when absent), obtain a decision, audit-log it if enabled, and
collect the decisions in emission order. -/
def collectDecisions {σ α : Type}
    (review : ActionRequest → ReviewConfig → Context → σ →
      Except PyErr (Decision × ActionRequest × σ))
    (auditFn : Option (ActionRequest → Decision → Context → α → α))
    (cmap : String → Option ReviewConfig) (ctx : Context) :
    List ActionRequest → σ → α → Except PyErr (List Decision × σ × α)
  | [], s, a => .ok ([], s, a)
  | ar :: rest, s, a =>
    match cmap ar.name with
    | none => .error (.keyError ar.name)
    | some cfg =>
      match review ar cfg ctx s with
      | .error e => .error e
      | .ok (d, arPost, s') =>
        let a' := match auditFn with
          | none => a
          | some f => f arPost d ctx a
        match collectDecisions review auditFn cmap ctx rest s' a' with
        | .error e => .error e
        | .ok (ds, s'', a'') => .ok (d :: ds, s'', a'')

/-- The `while result.get("__interrupt__") and iteration < max_iterations`
loop.  `rem` is `max_iterations - iteration`, so the guard `iteration <
max_iterations` is `rem > 0`; each pass increments the iteration counter,
processes the batch of `result["__interrupt__"][0].value` and resumes under
the same thread identifier. -/
def hitlGo {σ α : Type} (agent : Nat → AgentResult)
    (review : ActionRequest → ReviewConfig → Context → σ →
      Except PyErr (Decision × ActionRequest × σ))
    (auditFn : Option (ActionRequest → Decision → Context → α → α))
    (threadId : String) :
    Nat → Nat → AgentResult → σ → α → List ResumeCall →
    Except PyErr (AgentResult × Nat × List ResumeCall × σ × α)
  | 0, iter, result, s, a, acc => .ok (result, iter, acc, s, a)
  | rem + 1, iter, result, s, a, acc =>
    match result.interrupts with
    | [] => .ok (result, iter, acc, s, a)
    | intr :: _ =>
      let iter' := iter + 1
      let cmap := buildConfigMap intr.review_configs
      let ctx : Context := ⟨"iteration " ++ toString iter', threadId⟩
      match collectDecisions review auditFn cmap ctx
          intr.action_requests s a with
      | .error e => .error e
      | .ok (ds, s', a') =>
        hitlGo agent review auditFn threadId rem iter' (agent iter') s' a'
          (acc ++
            [⟨intr.action_requests, intr.review_configs, ctx, ds, threadId⟩])

/-- `run_agent_with_hitl`: initial invocation, interrupt-handling loop, and
the final max-iterations warning check (`iteration >= max_iterations`). -/
def run_agent_with_hitl {σ α : Type} (agent : Nat → AgentResult)
    (review : ActionRequest → ReviewConfig → Context → σ →
      Except PyErr (Decision × ActionRequest × σ))
    (auditFn : Option (ActionRequest → Decision → Context → α → α))
    (threadId : String) (maxIter : Nat) (s0 : σ) (a0 : α) :
    Except PyErr LoopOutcome :=
  match hitlGo agent review auditFn threadId maxIter 0 (agent 0) s0 a0 [] with
  | .error e => .error e
  | .ok (res, iters, resumes, _, _) =>
    .ok ⟨res, iters, iters + 1, resumes, decide (maxIter ≤ iters)⟩

/-- A review interface that neither consumes interactive state, nor mutates
the request, nor raises: the shape shared by `AutoApproveInterface` and any
decision function of the reviewed action alone. -/
def pureReview (f : ActionRequest → ReviewConfig → Context → Decision) :
    ActionRequest → ReviewConfig → Context → Unit →
      Except PyErr (Decision × ActionRequest × Unit) :=
  fun ar cfg ctx _ => .ok (f ar cfg ctx, ar, ())

/-- `AutoApproveInterface.review_action`: always approve. -/
def auto_approve_review : ActionRequest → ReviewConfig → Context → Unit →
    Except PyErr (Decision × ActionRequest × Unit) :=
  pureReview (fun _ _ _ => .approve)

/-- `CLIReviewInterface` as a loop review capability: the interactive state
is the remaining terminal input. -/
def cliReview (jsonParse : String → Option PyVal)
    (editor : String → String) :
    ActionRequest → ReviewConfig → Context → List String →
      Except PyErr (Decision × ActionRequest × List String) :=
  fun ar cfg ctx stdin => review_action jsonParse editor ar cfg (some ctx) stdin

/-- With a pure (state-free, non-raising, non-mutating) review function, the
per-batch collection returns one decision per pending action, and the `i`-th
decision is the review of the `i`-th action request under its looked-up
config. -/
theorem collectDecisions_pure {α : Type}
    (f : ActionRequest → ReviewConfig → Context → Decision)
    (auditFn : Option (ActionRequest → Decision → Context → α → α))
    (cmap : String → Option ReviewConfig) (ctx : Context) :
    ∀ (actions : List ActionRequest) (a : α) (ds : List Decision) (u : Unit)
      (a2 : α),
      collectDecisions (pureReview f) auditFn cmap ctx actions () a
        = .ok (ds, u, a2) →
      ds.length = actions.length ∧
      ∀ (i : Nat) ar d, actions[i]? = some ar → ds[i]? = some d →
        ∃ cfg, cmap ar.name = some cfg ∧ d = f ar cfg ctx := by
  intro actions
  induction actions with
  | nil =>
    intro a ds u a2 h
    simp [collectDecisions] at h
    obtain ⟨hds, -⟩ := h
    subst hds
    refine ⟨rfl, ?_⟩
    intro i ar d h1 h2
    simp at h1
  | cons ar rest ih =>
    intro a ds u a2 h
    rw [collectDecisions] at h
    cases hc : cmap ar.name with
    | none => rw [hc] at h; exact absurd h (by simp)
    | some cfg =>
      rw [hc] at h
      simp only [pureReview] at h
      set a1 := (match auditFn with
        | none => a
        | some g => g ar (f ar cfg ctx) ctx a) with ha1
      cases hrec : collectDecisions (pureReview f) auditFn cmap ctx rest ()
          a1 with
      | error e => rw [hrec] at h; exact absurd h (by simp)
      | ok trip =>
        obtain ⟨ds', u', a''⟩ := trip
        rw [hrec] at h
        simp only [Except.ok.injEq, Prod.mk.injEq] at h
        obtain ⟨hds, -, -⟩ := h
        subst hds
        obtain ⟨hlen, hcorr⟩ := ih _ _ _ _ hrec
        refine ⟨by simp [hlen], ?_⟩
        intro i x d h1 h2
        cases i with
        | zero =>
          simp at h1 h2
          subst h1
          subst h2
          exact ⟨cfg, hc, rfl⟩
        | succ j =>
          simp at h1 h2
          exact hcorr j x d h1 h2

/-- A well-formed resume call: made under the given thread identifier, with
one decision per pending action of its batch, the `i`-th decision being the
review of the `i`-th action request (under that batch's config lookup and
that batch's context). -/
def goodResume (f : ActionRequest → ReviewConfig → Context → Decision)
    (tid : String) (rc : ResumeCall) : Prop :=
  rc.threadId = tid ∧
  rc.decisions.length = rc.actionRequests.length ∧
  ∀ (i : Nat) ar d, rc.actionRequests[i]? = some ar →
    rc.decisions[i]? = some d →
    ∃ cfg, buildConfigMap rc.reviewConfigs ar.name = some cfg ∧
      d = f ar cfg rc.context

/-- Loop invariant: every resume call the loop emits is well-formed. -/
theorem hitlGo_resumes_pure {α : Type} (agent : Nat → AgentResult)
    (f : ActionRequest → ReviewConfig → Context → Decision)
    (auditFn : Option (ActionRequest → Decision → Context → α → α))
    (tid : String) :
    ∀ (rem iter : Nat) (result : AgentResult) (a : α) (acc : List ResumeCall)
      (res : AgentResult) (iters : Nat) (resumes : List ResumeCall)
      (u : Unit) (a2 : α),
      hitlGo agent (pureReview f) auditFn tid rem iter result () a acc
        = .ok (res, iters, resumes, u, a2) →
      (∀ rc ∈ acc, goodResume f tid rc) →
      ∀ rc ∈ resumes, goodResume f tid rc := by
  intro rem
  induction rem with
  | zero =>
    intro iter result a acc res iters resumes u a2 h hacc
    rw [hitlGo] at h
    simp only [Except.ok.injEq, Prod.mk.injEq] at h
    obtain ⟨-, -, hres, -⟩ := h
    subst hres
    exact hacc
  | succ rem ih =>
    intro iter result a acc res iters resumes u a2 h hacc
    rw [hitlGo] at h
    cases hint : result.interrupts with
    | nil =>
      rw [hint] at h
      simp only [Except.ok.injEq, Prod.mk.injEq] at h
      obtain ⟨-, -, hres, -⟩ := h
      subst hres
      exact hacc
    | cons intr t =>
      rw [hint] at h
      simp only at h
      cases hcd : collectDecisions (pureReview f) auditFn
          (buildConfigMap intr.review_configs)
          ⟨"iteration " ++ toString (iter + 1), tid⟩
          intr.action_requests () a with
      | error e => rw [hcd] at h; exact absurd h (by simp)
      | ok trip =>
        obtain ⟨ds, u1, a1⟩ := trip
        rw [hcd] at h
        refine ih _ _ _ _ _ _ _ _ _ h ?_
        intro rc hrc
        rcases List.mem_append.1 hrc with hm | hm
        · exact hacc rc hm
        · rw [List.mem_singleton] at hm
          subst hm
          obtain ⟨hlen, hcorr⟩ :=
            collectDecisions_pure f auditFn _ _ _ _ _ _ _ hcd
          exact ⟨rfl, hlen, hcorr⟩

/-- The iteration counter on exit never exceeds its start plus the remaining
loop budget. -/
theorem hitlGo_iter_bound {σ α : Type} (agent : Nat → AgentResult)
    (review : ActionRequest → ReviewConfig → Context → σ →
      Except PyErr (Decision × ActionRequest × σ))
    (auditFn : Option (ActionRequest → Decision → Context → α → α))
    (tid : String) :
    ∀ (rem iter : Nat) (result : AgentResult) (s : σ) (a : α)
      (acc : List ResumeCall) (res : AgentResult) (iters : Nat)
      (resumes : List ResumeCall) (s2 : σ) (a2 : α),
      hitlGo agent review auditFn tid rem iter result s a acc
        = .ok (res, iters, resumes, s2, a2) →
      iters ≤ iter + rem := by
  intro rem
  induction rem with
  | zero =>
    intro iter result s a acc res iters resumes s2 a2 h
    rw [hitlGo] at h
    simp only [Except.ok.injEq, Prod.mk.injEq] at h
    obtain ⟨-, hit, -⟩ := h
    omega
  | succ rem ih =>
    intro iter result s a acc res iters resumes s2 a2 h
    rw [hitlGo] at h
    cases hint : result.interrupts with
    | nil =>
      rw [hint] at h
      simp only [Except.ok.injEq, Prod.mk.injEq] at h
      obtain ⟨-, hit, -⟩ := h
      omega
    | cons intr t =>
      rw [hint] at h
      simp only at h
      cases hcd : collectDecisions review auditFn
          (buildConfigMap intr.review_configs)
          ⟨"iteration " ++ toString (iter + 1), tid⟩
          intr.action_requests s a with
      | error e => rw [hcd] at h; exact absurd h (by simp)
      | ok trip =>
        obtain ⟨ds, s1, a1⟩ := trip
        rw [hcd] at h
        have := ih _ _ _ _ _ _ _ _ _ _ h
        omega

/-- Against an agent whose every result pauses, a successful loop run spends
its entire remaining budget and ends on the last (still paused) agent
result. -/
theorem hitlGo_always_paused {σ α : Type} (agent : Nat → AgentResult)
    (review : ActionRequest → ReviewConfig → Context → σ →
      Except PyErr (Decision × ActionRequest × σ))
    (auditFn : Option (ActionRequest → Decision → Context → α → α))
    (tid : String) (hp : ∀ k, (agent k).interrupts ≠ []) :
    ∀ (rem iter : Nat) (s : σ) (a : α) (acc : List ResumeCall)
      (res : AgentResult) (iters : Nat) (resumes : List ResumeCall)
      (s2 : σ) (a2 : α),
      hitlGo agent review auditFn tid rem iter (agent iter) s a acc
        = .ok (res, iters, resumes, s2, a2) →
      iters = iter + rem ∧ res = agent iters := by
  intro rem
  induction rem with
  | zero =>
    intro iter s a acc res iters resumes s2 a2 h
    rw [hitlGo] at h
    simp only [Except.ok.injEq, Prod.mk.injEq] at h
    obtain ⟨hres, hit, -⟩ := h
    subst hit
    exact ⟨rfl, hres.symm⟩
  | succ rem ih =>
    intro iter s a acc res iters resumes s2 a2 h
    rw [hitlGo] at h
    cases hint : (agent iter).interrupts with
    | nil => exact absurd hint (hp iter)
    | cons intr t =>
      rw [hint] at h
      simp only at h
      cases hcd : collectDecisions review auditFn
          (buildConfigMap intr.review_configs)
          ⟨"iteration " ++ toString (iter + 1), tid⟩
          intr.action_requests s a with
      | error e => rw [hcd] at h; exact absurd h (by simp)
      | ok trip =>
        obtain ⟨ds, s1, a1⟩ := trip
        rw [hcd] at h
        obtain ⟨hit, hres⟩ := ih _ _ _ _ _ _ _ _ _ h
        exact ⟨by omega, hres⟩

/-- When some pending action of a batch has no matching review config, the
per-batch collection raises `KeyError` naming the first such action-kind,
for every audit state. -/
theorem collectDecisions_pure_missing {α : Type}
    (f : ActionRequest → ReviewConfig → Context → Decision)
    (auditFn : Option (ActionRequest → Decision → Context → α → α))
    (cmap : String → Option ReviewConfig) (ctx : Context) :
    ∀ (actions : List ActionRequest),
      (∃ x ∈ actions, cmap x.name = none) →
      ∃ b ∈ actions, cmap b.name = none ∧
        ∀ (a : α),
          collectDecisions (pureReview f) auditFn cmap ctx actions () a
            = .error (.keyError b.name) := by
  intro actions
  induction actions with
  | nil =>
    intro h
    obtain ⟨x, hx, -⟩ := h
    simp at hx
  | cons ar rest ih =>
    intro h
    cases hc : cmap ar.name with
    | none =>
      refine ⟨ar, List.mem_cons_self ar rest, hc, ?_⟩
      intro a
      rw [collectDecisions, hc]
    | some cfg =>
      have hrest : ∃ x ∈ rest, cmap x.name = none := by
        obtain ⟨x, hx, hxn⟩ := h
        rcases List.mem_cons.1 hx with hx | hx
        · subst hx; rw [hc] at hxn; exact absurd hxn (by simp)
        · exact ⟨x, hx, hxn⟩
      obtain ⟨b, hb, hbn, hberr⟩ := ih hrest
      refine ⟨b, List.mem_cons_of_mem ar hb, hbn, ?_⟩
      intro a
      rw [collectDecisions, hc]
      simp only [pureReview]
      rw [hberr]

/-- Claim C1: for every pause batch the loop processes, the decisions list
passed to the resume call holds exactly one decision per pending action, in
the exact order the agent emitted them — the `i`-th decision is the review of
the `i`-th action request under that batch's config lookup and context — and
every resume call reuses the thread identifier of the initial invocation. -/
theorem hitl_resume_order_and_thread {α : Type} (agent : Nat → AgentResult)
    (f : ActionRequest → ReviewConfig → Context → Decision)
    (auditFn : Option (ActionRequest → Decision → Context → α → α))
    (tid : String) (maxIter : Nat) (a0 : α) (out : LoopOutcome)
    (h : run_agent_with_hitl agent (pureReview f) auditFn tid maxIter () a0
      = .ok out) :
    ∀ rc ∈ out.resumes, goodResume f tid rc := by
  rw [run_agent_with_hitl] at h
  cases hgo : hitlGo agent (pureReview f) auditFn tid maxIter 0 (agent 0)
      () a0 [] with
  | error e => rw [hgo] at h; exact absurd h (by simp)
  | ok quint =>
    obtain ⟨res, iters, resumes, u, a2⟩ := quint
    rw [hgo] at h
    simp only [Except.ok.injEq] at h
    subst h
    exact hitlGo_resumes_pure agent f auditFn tid _ _ _ _ _ _ _ _ _ _ hgo
      (by intro rc hrc; simp at hrc)

/-- A concrete one-action pause batch agent, for the loop witnesses. -/
def arW : ActionRequest := ⟨"task", .dict []⟩

/-- See `arW`. -/
def cfgW : ReviewConfig := ⟨"task", none⟩

/-- See `arW`. -/
def agentW : Nat → AgentResult := fun _ => ⟨[⟨[arW], [cfgW]⟩]⟩

/-- A concrete pure review function, for the loop witnesses. -/
def fW : ActionRequest → ReviewConfig → Context → Decision :=
  fun _ _ _ => .approve

/-- The outcome of running the loop on `agentW` for one iteration. -/
def outW : LoopOutcome :=
  ⟨⟨[⟨[arW], [cfgW]⟩]⟩, 1, 2,
   [⟨[arW], [cfgW], ⟨"iteration " ++ toString 1, "t"⟩, [.approve], "t"⟩],
   true⟩

/-- Witness for claim C1 at a concrete one-batch run. -/
theorem hitl_resume_order_and_thread_witness :
    run_agent_with_hitl agentW (pureReview fW)
      (none : Option (ActionRequest → Decision → Context → Unit → Unit))
      "t" 1 () () = .ok outW ∧
    ∀ rc ∈ outW.resumes, goodResume fW "t" rc :=
  ⟨rfl, hitl_resume_order_and_thread agentW fW none "t" 1 () outW rfl⟩

/-- An agent mock whose every invocation returns a paused result. -/
def alwaysPaused (agent : Nat → AgentResult) : Prop :=
  ∀ k, (agent k).interrupts ≠ []

/-- Claim C2: a successful loop run performs at most `max_iterations` resume
cycles (total agent calls = iterations + 1 ≤ max_iterations + 1); and against
an agent that always pauses, a run with `max_iterations = 3` makes exactly 4
agent calls, emits the warning, and returns a result that still carries the
pause signal. -/
theorem hitl_iteration_bound :
    (∀ (σ α : Type) (agent : Nat → AgentResult)
      (review : ActionRequest → ReviewConfig → Context → σ →
        Except PyErr (Decision × ActionRequest × σ))
      (auditFn : Option (ActionRequest → Decision → Context → α → α))
      (tid : String) (maxIter : Nat) (s0 : σ) (a0 : α) (out : LoopOutcome),
      run_agent_with_hitl agent review auditFn tid maxIter s0 a0 = .ok out →
      out.iterations ≤ maxIter ∧ out.agentCalls = out.iterations + 1) ∧
    (∀ (σ α : Type) (agent : Nat → AgentResult)
      (review : ActionRequest → ReviewConfig → Context → σ →
        Except PyErr (Decision × ActionRequest × σ))
      (auditFn : Option (ActionRequest → Decision → Context → α → α))
      (tid : String) (s0 : σ) (a0 : α) (out : LoopOutcome),
      alwaysPaused agent →
      run_agent_with_hitl agent review auditFn tid 3 s0 a0 = .ok out →
      out.agentCalls = 4 ∧ out.warned = true ∧
        out.result.interrupts ≠ []) := by
  constructor
  · intro σ α agent review auditFn tid maxIter s0 a0 out h
    rw [run_agent_with_hitl] at h
    cases hgo : hitlGo agent review auditFn tid maxIter 0 (agent 0)
        s0 a0 [] with
    | error e => rw [hgo] at h; exact absurd h (by simp)
    | ok quint =>
      obtain ⟨res, iters, resumes, s2, a2⟩ := quint
      rw [hgo] at h
      simp only [Except.ok.injEq] at h
      subst h
      have hb := hitlGo_iter_bound agent review auditFn tid _ _ _ _ _ _ _ _
        _ _ _ hgo
      exact ⟨by simpa using hb, rfl⟩
  · intro σ α agent review auditFn tid s0 a0 out hp h
    rw [run_agent_with_hitl] at h
    cases hgo : hitlGo agent review auditFn tid 3 0 (agent 0) s0 a0 [] with
    | error e => rw [hgo] at h; exact absurd h (by simp)
    | ok quint =>
      obtain ⟨res, iters, resumes, s2, a2⟩ := quint
      rw [hgo] at h
      simp only [Except.ok.injEq] at h
      subst h
      obtain ⟨hit, hres⟩ :=
        hitlGo_always_paused agent review auditFn tid hp 3 0 _ _ _ _ _ _
          _ _ hgo
      refine ⟨?_, ?_, ?_⟩
      · show iters + 1 = 4
        omega
      · show decide (3 ≤ iters) = true
        subst hit
        decide
      · show res.interrupts ≠ []
        rw [hres]
        exact hp iters

/-- An always-pausing agent with empty action batches, for the witness. -/
def agentP : Nat → AgentResult := fun _ => ⟨[⟨[], []⟩]⟩

/-- The outcome of exhausting 3 iterations against `agentP`. -/
def outP : LoopOutcome :=
  ⟨⟨[⟨[], []⟩]⟩, 3, 4,
   [⟨[], [], ⟨"iteration " ++ toString 1, "t"⟩, [], "t"⟩,
    ⟨[], [], ⟨"iteration " ++ toString 2, "t"⟩, [], "t"⟩,
    ⟨[], [], ⟨"iteration " ++ toString 3, "t"⟩, [], "t"⟩],
   true⟩

/-- Witness for claim C2: the always-pausing agent with `max_iterations = 3`
(4 agent calls, warning, still-paused result). -/
theorem hitl_iteration_bound_witness :
    alwaysPaused agentP ∧
    run_agent_with_hitl agentP auto_approve_review
      (none : Option (ActionRequest → Decision → Context → Unit → Unit))
      "t" 3 () () = .ok outP ∧
    (outP.agentCalls = 4 ∧ outP.warned = true ∧
      outP.result.interrupts ≠ []) :=
  ⟨fun _ => List.cons_ne_nil _ _, rfl,
   hitl_iteration_bound.2 Unit Unit agentP auto_approve_review none "t"
     () () outP (fun _ => List.cons_ne_nil _ _) rfl⟩

/-- Claim C3: when a processed pause batch holds an action whose kind has no
matching entry in that batch's review configs, the loop raises a `KeyError`
naming a missing action-kind of the batch, and the error propagates out of
`run_agent_with_hitl` instead of being skipped or recovered. -/
theorem hitl_missing_config_raises {α : Type} (agent : Nat → AgentResult)
    (f : ActionRequest → ReviewConfig → Context → Decision)
    (auditFn : Option (ActionRequest → Decision → Context → α → α))
    (tid : String) (maxIter : Nat) (a0 : α)
    (intr : Interrupt) (t : List Interrupt) (x : ActionRequest)
    (h0 : (agent 0).interrupts = intr :: t)
    (hx : x ∈ intr.action_requests)
    (hmiss : buildConfigMap intr.review_configs x.name = none)
    (hiter : 1 ≤ maxIter) :
    ∃ b ∈ intr.action_requests,
      buildConfigMap intr.review_configs b.name = none ∧
      run_agent_with_hitl agent (pureReview f) auditFn tid maxIter () a0
        = .error (.keyError b.name) := by
  obtain ⟨b, hb, hbn, hberr⟩ :=
    collectDecisions_pure_missing f auditFn
      (buildConfigMap intr.review_configs)
      ⟨"iteration " ++ toString (0 + 1), tid⟩ intr.action_requests
      ⟨x, hx, hmiss⟩
  refine ⟨b, hb, hbn, ?_⟩
  obtain ⟨m, rfl⟩ : ∃ m, maxIter = m + 1 := ⟨maxIter - 1, by omega⟩
  have hgo : hitlGo agent (pureReview f) auditFn tid (m + 1) 0 (agent 0)
      () a0 [] = .error (.keyError b.name) := by
    rw [hitlGo, h0]
    simp only
    rw [hberr a0]
  rw [run_agent_with_hitl, hgo]

/-- A pause batch with one pending action and no review configs. -/
def intr3 : Interrupt := ⟨[⟨"task", .dict []⟩], []⟩

/-- See `intr3`. -/
def agent3 : Nat → AgentResult := fun _ => ⟨[intr3]⟩

/-- Witness for claim C3 at a concrete config-less batch. -/
theorem hitl_missing_config_raises_witness :
    (agent3 0).interrupts = intr3 :: [] ∧
    (⟨"task", PyVal.dict []⟩ : ActionRequest) ∈ intr3.action_requests ∧
    buildConfigMap intr3.review_configs "task" = none ∧
    (1 : Nat) ≤ 1 ∧
    ∃ b ∈ intr3.action_requests,
      buildConfigMap intr3.review_configs b.name = none ∧
      run_agent_with_hitl agent3 (pureReview fW)
        (none : Option (ActionRequest → Decision → Context → Unit → Unit))
        "t" 1 () () = .error (.keyError b.name) :=
  ⟨rfl, List.mem_cons_self _ _, rfl, by decide,
   hitl_missing_config_raises agent3 fW none "t" 1 () intr3 []
     ⟨"task", .dict []⟩ rfl (List.mem_cons_self _ _) rfl (by decide)⟩

/-- The generic JSON edit never touches the reviewed request. -/
theorem edit_generic_post (jp : String → Option PyVal) (ar : ActionRequest)
    (stdin : List String) (d : Decision) (post : ActionRequest)
    (rest : List String)
    (h : edit_generic jp ar stdin = .ok (d, post, rest)) : post = ar := by
  rw [edit_generic] at h
  split at h
  · simp only [Except.ok.injEq, Prod.mk.injEq] at h
    exact h.2.1.symm
  · simp only [Except.ok.injEq, Prod.mk.injEq] at h
    exact h.2.1.symm

/-- The task-delegation edit flow never touches the reviewed request (it
builds fresh argument dicts for its edit decisions). -/
theorem edit_task_post (jp : String → Option PyVal) (ar : ActionRequest)
    (stdin : List String) (d : Decision) (post : ActionRequest)
    (rest : List String)
    (h : edit_task jp ar stdin = .ok (d, post, rest)) : post = ar := by
  rw [edit_task] at h
  repeat' first
    | split at h
    | simp only at h
  all_goals
    first
      | exact Except.noConfusion h
      | exact edit_generic_post _ _ _ _ _ _ h
      | (simp only [Except.ok.injEq, Prod.mk.injEq] at h
         exact h.2.1.symm)

/-- The file-write edit flow never touches the reviewed request. -/
theorem edit_file_post (jp : String → Option PyVal) (ed : String → String)
    (ar : ActionRequest) (stdin : List String) (d : Decision)
    (post : ActionRequest) (rest : List String)
    (h : edit_file jp ed ar stdin = .ok (d, post, rest)) : post = ar := by
  rw [edit_file] at h
  repeat' first
    | split at h
    | simp only at h
  all_goals
    first
      | exact Except.noConfusion h
      | exact edit_generic_post _ _ _ _ _ _ h
      | (simp only [Except.ok.injEq, Prod.mk.injEq] at h
         exact h.2.1.symm)

/-- The todo edit flow either leaves the reviewed request untouched or
mutates exactly the value of its `"todos"` args entry in place. -/
theorem edit_todos_post (jp : String → Option PyVal) (ar : ActionRequest)
    (stdin : List String) (d : Decision) (post : ActionRequest)
    (rest : List String)
    (h : edit_todos jp ar stdin = .ok (d, post, rest)) :
    post = ar ∨ ∃ kvs ts, ar.args = .dict kvs ∧
      post = { ar with args := .dict (pySet kvs "todos" (.list ts)) } := by
  rw [edit_todos] at h
  repeat' first
    | split at h
    | simp only at h
  all_goals
    first
      | exact Except.noConfusion h
      | exact Or.inl (edit_generic_post _ _ _ _ _ _ h)
      | (simp only [Except.ok.injEq, Prod.mk.injEq] at h
         exact Or.inl h.2.1.symm)
      | (simp only [Except.ok.injEq, Prod.mk.injEq] at h
         refine Or.inr ⟨_, _, ?_, h.2.1.symm⟩
         assumption)

/-- How far a review call may change the reviewed request: its name is never
changed; outside the `write_todos` flow it is untouched; in the
`write_todos` flow at most the value at the `"todos"` key of its args is
replaced by the mutated todo list. -/
def mutationConfined (ar post : ActionRequest) : Prop :=
  post.name = ar.name ∧
  (ar.name ≠ "write_todos" → post = ar) ∧
  (post = ar ∨ ∃ kvs ts, ar.args = .dict kvs ∧
    post = { ar with args := .dict (pySet kvs "todos" (.list ts)) })

/-- An untouched request is trivially within the mutation bound. -/
theorem mutationConfined_refl (ar : ActionRequest) :
    mutationConfined ar ar :=
  ⟨rfl, fun _ => rfl, Or.inl rfl⟩

/-- The edit dispatch respects the mutation bound. -/
theorem handle_edit_mutation (jp : String → Option PyVal)
    (ed : String → String) (ar : ActionRequest) (stdin : List String)
    (d : Decision) (post : ActionRequest) (rest : List String)
    (h : handle_edit jp ed ar stdin = .ok (d, post, rest)) :
    mutationConfined ar post := by
  rw [handle_edit] at h
  split at h
  · rcases edit_todos_post _ _ _ _ _ _ h with hp | ⟨kvs, ts, hargs, hp⟩
    · rw [hp]; exact mutationConfined_refl ar
    · subst hp
      refine ⟨rfl, ?_, Or.inr ⟨kvs, ts, hargs, rfl⟩⟩
      intro hne
      exfalso
      rename_i hbeq
      exact hne (by simpa using hbeq)
  · split at h
    · have hp := edit_task_post _ _ _ _ _ _ h
      rw [hp]; exact mutationConfined_refl ar
    · split at h
      · have hp := edit_file_post _ _ _ _ _ _ _ h
        rw [hp]; exact mutationConfined_refl ar
      · have hp := edit_generic_post _ _ _ _ _ _ h
        rw [hp]; exact mutationConfined_refl ar

/-- The interactive prompt loop respects the mutation bound for every input
sequence. -/
theorem reviewPrompt_mutation (jp : String → Option PyVal)
    (ed : String → String) (allowed : List String) (ar : ActionRequest) :
    ∀ (stdin : List String) (d : Decision) (post : ActionRequest)
      (rest : List String),
      reviewPrompt jp ed allowed ar stdin = .ok (d, post, rest) →
      mutationConfined ar post := by
  intro stdin
  induction stdin with
  | nil =>
    intro d post rest h
    rw [reviewPrompt] at h
    exact Except.noConfusion h
  | cons c cs ih =>
    intro d post rest h
    rw [reviewPrompt] at h
    repeat' first
      | split at h
      | simp only at h
    all_goals
      first
        | exact handle_edit_mutation _ _ _ _ _ _ _ h
        | exact ih _ _ _ h
        | (simp only [Except.ok.injEq, Prod.mk.injEq] at h
           obtain ⟨-, hp, -⟩ := h
           rw [← hp]
           exact mutationConfined_refl ar)

/-- A `json.loads` model that fails on every input, for concrete runs that
never reach the generic edit. -/
def jp0 : String → Option PyVal := fun _ => none

/-- An external-editor model that returns the content unchanged. -/
def ed0 : String → String := id

/-- A concrete well-formed todo item. -/
def t1 : PyVal := .dict [("task", .str "A"), ("status", .str "pending")]

/-- A concrete `write_todos` action request with one todo. -/
def arT : ActionRequest := ⟨"write_todos", .dict [("todos", .list [t1])]⟩

/-- A review config without an `allowed_decisions` restriction. -/
def cfg0 : ReviewConfig := ⟨"write_todos", none⟩

/-- The todo the add-todo flow appends for inputs "X" / "high". -/
def newTodo : PyVal :=
  .dict [("task", .str "X"), ("status", .str "pending"),
         ("priority", .str "high")]

/-- `arT` after the add-todo flow mutated its aliased todo list. -/
def arTmut : ActionRequest :=
  ⟨"write_todos", .dict [("todos", .list [t1, newTodo])]⟩

/-- Claim C4 counterexample: reviewing `arT` with inputs Edit (2), add-todo
(1), task "X", priority "high" returns an Edit decision, but also leaves the
original `action_request` mutated — its `args['todos']` now holds the
appended list (the same aliased list the Edit decision wraps) — so the
request is not unchanged after the call. -/
theorem action_request_mutated_by_todo_edit :
    review_action jp0 ed0 arT cfg0 none ["2", "1", "X", "high"]
      = .ok (.edit "write_todos" (.dict [("todos", .list [t1, newTodo])]),
             arTmut, []) ∧
    arTmut ≠ arT := by
  refine ⟨rfl, ?_⟩
  simp [arTmut, arT, t1, newTodo]

/-- Claim C4 (amended): a review call never changes the request's name, the
task / write_file / generic editing flows and the approve/reject paths never
mutate the request at all, but the write_todos editing flow may mutate the
todo list inside the original request's args in place (the returned Edit
decision wraps that same list); any other modification is expressed only
through the returned Edit decision. -/
theorem review_mutation_confined (jp : String → Option PyVal)
    (ed : String → String) (ar : ActionRequest) (cfg : ReviewConfig)
    (ctx : Option Context) (stdin : List String) (d : Decision)
    (post : ActionRequest) (rest : List String)
    (h : review_action jp ed ar cfg ctx stdin = .ok (d, post, rest)) :
    mutationConfined ar post := by
  rw [review_action] at h
  exact reviewPrompt_mutation jp ed _ ar stdin d post rest h

/-- Witness for the amended claim C4 at a concrete approve run. -/
theorem review_mutation_confined_witness :
    review_action jp0 ed0 arT cfg0 none ["1"] = .ok (.approve, arT, []) ∧
    mutationConfined arT arT :=
  ⟨rfl,
   review_mutation_confined jp0 ed0 arT cfg0 none ["1"] .approve arT [] rfl⟩

/-- Claim C5 (the code bug): reviewing a `write_todos` action with inputs
Edit (2), remove-todo (2) and the non-numeric index "abc" makes the
unguarded `int(input(...))` raise a `ValueError` that propagates out of
`review_action` to the caller — malformed index input is not handled inside
the review call. -/
theorem review_nonnumeric_index_raises :
    review_action jp0 ed0 arT cfg0 none ["2", "2", "abc"]
      = .error (.valueError "abc") := rfl

/-- Claim C10: in the write_todos editing sub-menu every choice other than
"1"–"5" falls through to an Edit decision wrapping the unchanged todo list
(and leaves the request untouched), whereas in the task and write_file
editing sub-menus every choice outside the explicitly handled ones returns a
Reject decision. -/
theorem submenu_fallthrough_asymmetry :
    (∀ (jp : String → Option PyVal) (ar : ActionRequest) kvs todos
      (c : String) (rest : List String),
      ar.args = .dict kvs →
      pyGet? kvs "todos" = some (.list todos) →
      checkTodos todos = .ok () →
      strTrim c ∉ (["1", "2", "3", "4", "5"] : List String) →
      edit_todos jp ar (c :: rest)
        = .ok (.edit "write_todos" (.dict [("todos", .list todos)]),
               ar, rest)) ∧
    (∀ (jp : String → Option PyVal) (ar : ActionRequest) kvs nameV taskV
      (c : String) (rest : List String),
      ar.args = .dict kvs →
      pyGet? kvs "name" = some nameV →
      pyGet? kvs "task" = some taskV →
      strTrim c ∉ (["1", "2", "3"] : List String) →
      edit_task jp ar (c :: rest) = .ok (.reject, ar, rest)) ∧
    (∀ (jp : String → Option PyVal) (ed : String → String)
      (ar : ActionRequest) kvs pathV contentV (n : Nat)
      (c : String) (rest : List String),
      ar.args = .dict kvs →
      pyGet? kvs "file_path" = some pathV →
      pyGet? kvs "content" = some contentV →
      pyLen contentV = .ok n →
      strTrim c ∉ (["1", "2", "3"] : List String) →
      edit_file jp ed ar (c :: rest) = .ok (.reject, ar, rest)) := by
  refine ⟨?_, ?_, ?_⟩
  · intro jp ar kvs todos c rest h1 h2 h3 h4
    simp only [List.mem_cons, List.mem_singleton, not_or] at h4
    obtain ⟨hc1, hc2, hc3, hc4, hc5⟩ := h4
    obtain ⟨nm, args⟩ := ar
    simp only at h1
    subst h1
    simp [edit_todos, h2, h3, hc1, hc2, hc3, hc4, hc5]
  · intro jp ar kvs nameV taskV c rest h1 h2 h3 h4
    simp only [List.mem_cons, List.mem_singleton, not_or] at h4
    obtain ⟨hc1, hc2, hc3⟩ := h4
    obtain ⟨nm, args⟩ := ar
    simp only at h1
    subst h1
    simp [edit_task, h2, h3, hc1, hc2, hc3]
  · intro jp ed ar kvs pathV contentV n c rest h1 h2 h3 hlen h4
    simp only [List.mem_cons, List.mem_singleton, not_or] at h4
    obtain ⟨hc1, hc2, hc3⟩ := h4
    obtain ⟨nm, args⟩ := ar
    simp only at h1
    subst h1
    simp [edit_file, h2, h3, hlen, hc1, hc2, hc3]

/-- A concrete task-delegation request, for the claim C10 witness. -/
def arK : ActionRequest :=
  ⟨"task", .dict [("name", .str "legal-analyzer"), ("task", .str "analyze")]⟩

/-- A concrete file-write request, for the claim C10 witness. -/
def arF : ActionRequest :=
  ⟨"write_file",
   .dict [("file_path", .str "/tmp/r.md"), ("content", .str "hello")]⟩

/-- Witness for claim C10 at the unrecognized choice "9" in each sub-menu. -/
theorem submenu_fallthrough_asymmetry_witness :
    strTrim "9" ∉ (["1", "2", "3", "4", "5"] : List String) ∧
    edit_todos jp0 arT ["9"]
      = .ok (.edit "write_todos" (.dict [("todos", .list [t1])]), arT, []) ∧
    edit_task jp0 arK ["9"] = .ok (.reject, arK, []) ∧
    edit_file jp0 ed0 arF ["9"] = .ok (.reject, arF, []) :=
  ⟨by decide,
   submenu_fallthrough_asymmetry.1 jp0 arT _ [t1] "9" [] rfl rfl rfl
     (by decide),
   submenu_fallthrough_asymmetry.2.1 jp0 arK _ (.str "legal-analyzer")
     (.str "analyze") "9" [] rfl rfl rfl (by decide),
   submenu_fallthrough_asymmetry.2.2 jp0 ed0 arF _ (.str "/tmp/r.md")
     (.str "hello") 5 "9" [] rfl rfl rfl rfl (by decide)⟩
